import Mathlib

/-!
Verification development for the conversation-orchestration client of the
Discord bot (src/cogs/openai_threads.py).

The embedding models:
* `split_message` (lines 143-152): the response chunker;
* the citation-marker cleaning `re.sub` of line 239 (`clean_content`);
* `load_threads` (lines 61-69): registry load at startup;
* `create_thread` (lines 79-107): conversation creation and binding;
* the `ask_question` command body (lines 154-251): access gate, thread
  resolution, the 3-attempt run loop, the poll loop, and the reply paths.

Strings manipulated character-wise are `List Char`; opaque identifiers and
status strings are `String`.  The remote HTTP API is an oracle (`Env`)
supplying the JSON bodies the code reads.  The unbounded poll loop takes a
fuel parameter; exhausting fuel models the (real) possibility that the
Python loop never terminates and is reported as `ExecStatus.diverged`.
-/

/-- Whitespace in Python's ASCII range, as removed by str.strip():
space, tab, newline, carriage return, vertical tab, form feed. -/
def pyIsSpace (c : Char) : Bool :=
  c = ' ' || c = '\t' || c = '\n' || c = '\r' || c = Char.ofNat 11 || c = Char.ofNat 12

/-- Python str.strip(): remove the leading and the trailing run of whitespace. -/
def pyStrip (l : List Char) : List Char :=
  ((l.dropWhile pyIsSpace).reverse.dropWhile pyIsSpace).reverse

/-- Python message.rfind of a newline over message[0:e] (line 146): the greatest
index i < e holding a newline, `none` when there is no such index (-1 in Python).
Out-of-range indices read the default ' ' and therefore never match. -/
def rfindNl (l : List Char) : Nat → Option Nat
  | 0 => none
  | e + 1 => if l.getD e ' ' = '\n' then some e else rfindNl l e

/-- The chunker `split_message` (lines 143-152).  While the text exceeds
`max_length`: cut at the last newline of the first `max_length` characters,
or at exactly `max_length` when there is none; emit the prefix; continue with
the stripped remainder; finally emit what is left.  The decreasing guard `h`
always holds when `max_length ≥ 1` (lemma `split_decrease` below), so on that
domain the definition unfolds exactly as the Python loop does; the fallback
branch mirrors one final loop body followed by the trailing append. -/
def split_message (message : List Char) (max_length : Nat) : List (List Char) :=
  if message.length ≤ max_length then [message]
  else
    if h : (pyStrip (message.drop ((rfindNl message max_length).getD max_length))).length
        < message.length then
      message.take ((rfindNl message max_length).getD max_length) ::
        split_message (pyStrip (message.drop ((rfindNl message max_length).getD max_length)))
          max_length
    else
      [message.take ((rfindNl message max_length).getD max_length),
        pyStrip (message.drop ((rfindNl message max_length).getD max_length))]
termination_by message.length
decreasing_by exact h

/-- Fuel-indexed structural restatement of `split_message`, used to evaluate
the chunker on concrete inputs; it agrees with `split_message` whenever
`max_length ≥ 1` and the fuel is at least the length of the text
(lemma `split_message_eq_splitFuel`). -/
def splitFuel : Nat → List Char → Nat → List (List Char)
  | 0, message, _ => [message]
  | fuel + 1, message, max_length =>
    if message.length ≤ max_length then [message]
    else
      message.take ((rfindNl message max_length).getD max_length) ::
        splitFuel fuel (pyStrip (message.drop ((rfindNl message max_length).getD max_length)))
          max_length

/-- Scanner for the citation regex of line 239 (a non-greedy bracket pair whose
interior cannot cross a newline, substituted by the empty string).  The second
argument buffers, reversed, the characters read since a pending opening
bracket: a closing bracket discards the buffered match, a newline shows the
pending opening bracket can never be completed, end of input likewise. -/
def cleanAux : List Char → Option (List Char) → List Char
  | [], none => []
  | [], some buf => '【' :: buf.reverse
  | c :: r, none => if c = '【' then cleanAux r (some []) else c :: cleanAux r none
  | c :: r, some buf =>
    if c = '】' then cleanAux r none
    else if c = '\n' then ('【' :: buf.reverse) ++ '\n' :: cleanAux r none
    else cleanAux r (some (c :: buf))

/-- Cleaning of the assistant answer (line 239): remove every bracketed
citation marker. -/
def clean_content (text : List Char) : List Char := cleanAux text none

/-- A run JSON body as read by lines 212-235: the run id, its status string,
and the optional last_error field. -/
structure RunJson where
  id : String
  status : String
  last_error : Option String
deriving DecidableEq

/-- Python run.get('last_error', 'Unknown error') at line 230. -/
def last_error_str (r : RunJson) : String := r.last_error.getD "Unknown error"

/-- Oracle for the remote API: the body answered to the conversation-creation
call (ok carries the new id, error carries the extracted error.message with
its 'Unknown error' default of line 180), the body answered to the n-th
start-run call (`none` when the JSON has no 'status' key, line 215), and the
body answered to the n-th status poll (lines 217-225). -/
structure Env where
  createResp : Except String String
  startRun : Nat → Option RunJson
  poll : Nat → RunJson

/-- How one `ask_question` invocation ends: a plain return, the TypeError
raised by line 239 when re.sub receives the never-awaited coroutine produced
at line 235, or a poll loop that never reaches a terminal status. -/
inductive ExecStatus
  | returned
  | typeError
  | diverged
deriving DecidableEq

/-- The thread registry: the JSON object of data/threads.json, a mapping from
channel-id strings to thread-id strings. -/
abbrev ThreadMap := List (String × String)

/-- Python dict lookup on the registry. -/
def tm_find : ThreadMap → String → Option String
  | [], _ => none
  | (k, v) :: rest, key => if k = key then some v else tm_find rest key

/-- Python dict assignment threads[key] = v, observed through `tm_find`. -/
def tm_set (m : ThreadMap) (key v : String) : ThreadMap := (key, v) :: m

/-- State of data/threads.json as seen by `load_threads`: the file is absent,
or present with the outcome of json.load (`none` models a JSONDecodeError). -/
inductive FileState
  | missing
  | present (decoded : Option ThreadMap)

/-- Registry load at startup (lines 61-69): a missing file and an undecodable
file both give the empty registry; only a decodable file populates it. -/
def load_threads : FileState → ThreadMap
  | .missing => []
  | .present none => []
  | .present (some m) => m

/-- Conversation creation (lines 79-107): on HTTP success the returned thread
id is bound in the registry (line 101) and the body is returned; on a request
exception the error body is returned and nothing is bound.  Persistence of
the registry file is not modelled. -/
def create_thread (env : Env) (threads : ThreadMap) (channel_id : String) :
    ThreadMap × Except String String :=
  match env.createResp with
  | .ok tid => (tm_set threads channel_id tid, .ok tid)
  | .error msg => (threads, .error msg)

/-- The poll loop of lines 216-227: while the status is neither completed nor
failed, fetch the run again.  Returns the terminal run body (or `none` when
the fuel runs out, modelling a loop that never terminates) together with the
number of polls performed; the last argument indexes `Env.poll`. -/
def poll_loop (env : Env) : Nat → RunJson → Nat → Option RunJson × Nat
  | 0, run, _ =>
    if run.status = "completed" ∨ run.status = "failed" then (some run, 0) else (none, 0)
  | fuel + 1, run, pIdx =>
    if run.status = "completed" ∨ run.status = "failed" then (some run, 0)
    else
      let r := poll_loop env fuel (env.poll pIdx) (pIdx + 1)
      (r.1, r.2 + 1)

/-- Outcome of the run phase (the `for _ in range(3)` of lines 200-250):
how it ended, the error replies it sent, and how many start-run calls and
polls it made. -/
structure RunPhase where
  exec : ExecStatus
  replies : List String
  startRunCalls : Nat
  pollCalls : Nat
deriving DecidableEq

/-- The attempt loop of lines 200-250.  Each iteration starts a run; a body
without 'status' only logs and retries (line 248-250); a body with a status
is polled to a terminal status, a failed run replies with the remote error
and returns (lines 229-233), and a completed run reaches line 235, where the
async message fetch is invoked without await, so line 239 raises a TypeError
on the coroutine and no reply is ever produced on this path. -/
def attempt_loop (env : Env) (fuel : Nat) : Nat → Nat → Nat → RunPhase
  | 0, _, _ => ⟨.returned, [], 0, 0⟩
  | remaining + 1, sIdx, pIdx =>
    match env.startRun sIdx with
    | none =>
      let rest := attempt_loop env fuel remaining (sIdx + 1) pIdx
      ⟨rest.exec, rest.replies, rest.startRunCalls + 1, rest.pollCalls⟩
    | some run0 =>
      match poll_loop env fuel run0 pIdx with
      | (none, k) => ⟨.diverged, [], 1, k⟩
      | (some rT, k) =>
        if rT.status = "failed" then
          ⟨.returned, ["Run failed: " ++ last_error_str rT], 1, k⟩
        else
          ⟨.typeError, [], 1, k⟩

/-- The access gate of lines 52-57 and 167-170: with no configured list every
channel is allowed; with a configured list only its members are. -/
def isAllowed (allowed : Option (List Nat)) (cid : Nat) : Bool :=
  match allowed with
  | none => true
  | some l => l.contains cid

/-- Observable outcome of one `ask_question` invocation: how it ended, the
error replies sent via ctx.reply, the number of conversation-creation,
message-append, start-run and poll calls, and the registry afterwards. -/
structure AskResult where
  exec : ExecStatus
  replies : List String
  createCalls : Nat
  appendCalls : Nat
  startRunCalls : Nat
  pollCalls : Nat
  threads : ThreadMap
deriving DecidableEq

/-- The command body of lines 154-251.  A disallowed channel returns silently
(line 168-170).  An unbound channel creates the conversation: on success the
id is bound (again, line 177) and the run phase starts; on failure an error
reply is sent and the call ends (lines 176-183).  A bound channel appends the
user message (fire and forget, lines 184-197) and starts the run phase. -/
def ask_question (env : Env) (allowed : Option (List Nat)) (threads : ThreadMap)
    (cid : Nat) (fuel : Nat) : AskResult :=
  let channel_id := toString cid
  if isAllowed allowed cid then
    match tm_find threads channel_id with
    | none =>
      match create_thread env threads channel_id with
      | (threads1, Except.ok tid) =>
        let rp := attempt_loop env fuel 3 0 0
        ⟨rp.exec, rp.replies, 1, 0, rp.startRunCalls, rp.pollCalls,
          tm_set threads1 channel_id tid⟩
      | (threads1, Except.error msg) =>
        ⟨.returned, ["Erreur lors de la création du thread: " ++ msg], 1, 0, 0, 0, threads1⟩
    | some _ =>
      let rp := attempt_loop env fuel 3 0 0
      ⟨rp.exec, rp.replies, 0, 1, rp.startRunCalls, rp.pollCalls, threads⟩
  else
    ⟨.returned, [], 0, 0, 0, 0, threads⟩

/-- Python "str".split(',') (line 55): the comma-separated pieces, empties kept. -/
def split_commas : List Char → List (List Char)
  | [] => [[]]
  | c :: r =>
    if c = ',' then [] :: split_commas r
    else
      match split_commas r with
      | [] => [[c]]
      | s :: ss => (c :: s) :: ss

/-- Python int() on a canonical decimal numeral (line 55). -/
def parse_int (l : List Char) : Nat :=
  l.foldl (fun acc c => acc * 10 + (c.toNat - '0'.toNat)) 0

/-- The list-of-ints conversion of line 55. -/
def parse_allowed_channels (s : List Char) : List Nat :=
  (split_commas s).map parse_int

/-- Loading of ALLOWED_CHANNELS at startup (lines 53-57): an unset variable
and an empty string (falsy in Python) both leave the gate unrestricted. -/
def load_allowed_channels (envVar : Option (List Char)) : Option (List Nat) :=
  match envVar with
  | none => none
  | some s => if s = [] then none else some (parse_allowed_channels s)

/-- Interleaving used to state the chunker round trip: each segment followed
by the whitespace run the corresponding cut consumed. -/
def interAppend : List (List Char) → List (List Char) → List Char
  | [], _ => []
  | p :: ps, [] => p ++ interAppend ps []
  | p :: ps, w :: ws => p ++ w ++ interAppend ps ws

/-- A run body freshly queued. -/
def runQueued : RunJson := ⟨"r1", "queued", none⟩

/-- A run body still in progress. -/
def runInProgress : RunJson := ⟨"r1", "in_progress", none⟩

/-- A run body that completed. -/
def runCompleted : RunJson := ⟨"r1", "completed", none⟩

/-- A run body that failed with a remote-provided error. -/
def runFailedBoom : RunJson := ⟨"r1", "failed", some "boom"⟩

/-- Environment whose start-run responses never carry a status. -/
def envNoStatus : Env := ⟨.ok "t1", fun _ => none, fun _ => runCompleted⟩

/-- Environment whose first poll reports the terminal status failed. -/
def envFailed : Env := ⟨.ok "t1", fun _ => some runQueued, fun _ => runFailedBoom⟩

/-- Environment driving one run through queued, in progress, completed. -/
def envSuccess : Env :=
  ⟨.ok "t1", fun _ => some runQueued, fun n => if n = 0 then runInProgress else runCompleted⟩

/-- Environment that creates conversation t1 and never starts a run. -/
def envCreateOnly : Env := ⟨.ok "t1", fun _ => none, fun _ => runCompleted⟩

/-- Dropping a prefix by predicate never lengthens a list. -/
theorem dropWhile_length_le (p : Char → Bool) (l : List Char) :
    (l.dropWhile p).length ≤ l.length := by
  induction l with
  | nil => simp
  | cons a t ih =>
    rw [List.dropWhile_cons]
    by_cases h : p a
    · rw [if_pos h]
      simp only [List.length_cons]
      omega
    · rw [if_neg h]

/-- The head surviving dropWhile falsifies the predicate. -/
theorem dropWhile_head_false {p : Char → Bool} {l : List Char} {a : Char} {t : List Char}
    (h : l.dropWhile p = a :: t) : p a = false := by
  induction l with
  | nil => simp at h
  | cons c r ih =>
    rw [List.dropWhile_cons] at h
    by_cases hc : p c
    · simp only [hc, if_true] at h; exact ih h
    · simp only [hc, if_false, List.cons.injEq] at h
      obtain ⟨rfl, rfl⟩ := h
      simpa using hc

/-- A stripped text is never longer than its left-stripped stage. -/
theorem pyStrip_length_le_dropWhile (l : List Char) :
    (pyStrip l).length ≤ (l.dropWhile pyIsSpace).length := by
  unfold pyStrip
  rw [List.length_reverse]
  calc ((l.dropWhile pyIsSpace).reverse.dropWhile pyIsSpace).length
      ≤ (l.dropWhile pyIsSpace).reverse.length := dropWhile_length_le _ _
    _ = (l.dropWhile pyIsSpace).length := List.length_reverse _

/-- Stripping never lengthens a text. -/
theorem pyStrip_length_le (l : List Char) : (pyStrip l).length ≤ l.length :=
  le_trans (pyStrip_length_le_dropWhile l) (dropWhile_length_le _ _)

/-- An index reading a newline through getD is in range. -/
theorem getD_nl_lt {l : List Char} {p : Nat} (h : l.getD p ' ' = '\n') : p < l.length := by
  by_contra hge
  rw [List.getD_eq_default _ _ (by omega)] at h
  exact absurd h (by decide)

/-- What a successful rfind means: an in-window newline position. -/
theorem rfindNl_some {l : List Char} {e p : Nat} (h : rfindNl l e = some p) :
    p < e ∧ l.getD p ' ' = '\n' := by
  induction e with
  | zero => simp [rfindNl] at h
  | succ e ih =>
    have hstep : rfindNl l (e + 1) = if l.getD e ' ' = '\n' then some e else rfindNl l e := rfl
    rw [hstep] at h
    by_cases hc : l.getD e ' ' = '\n'
    · rw [if_pos hc] at h
      obtain rfl : e = p := by simpa using h
      exact ⟨by omega, hc⟩
    · rw [if_neg hc] at h
      obtain ⟨h1, h2⟩ := ih h
      exact ⟨by omega, h2⟩

/-- rfind finds the last in-window newline: a newline position with no later
newline in the window is the result. -/
theorem rfindNl_eq_some {l : List Char} {e p : Nat} (hp : p < e) (hnl : l.getD p ' ' = '\n')
    (hlast : ∀ j, j < e → p < j → l.getD j ' ' ≠ '\n') : rfindNl l e = some p := by
  induction e with
  | zero => omega
  | succ e ih =>
    have hstep : rfindNl l (e + 1) = if l.getD e ' ' = '\n' then some e else rfindNl l e := rfl
    by_cases he : p = e
    · subst he; rw [hstep, if_pos hnl]
    · have hne : l.getD e ' ' ≠ '\n' := hlast e (by omega) (by omega)
      rw [hstep, if_neg hne]
      exact ih (by omega) fun j hj1 hj2 => hlast j (by omega) hj2

/-- rfind over a window without a newline fails. -/
theorem rfindNl_eq_none {l : List Char} {e : Nat} (h : ∀ j, j < e → l.getD j ' ' ≠ '\n') :
    rfindNl l e = none := by
  induction e with
  | zero => rfl
  | succ e ih =>
    have hstep : rfindNl l (e + 1) = if l.getD e ' ' = '\n' then some e else rfindNl l e := rfl
    rw [hstep, if_neg (h e (by omega))]
    exact ih fun j hj => h j (by omega)

/-- The chosen cut position never exceeds the limit. -/
theorem split_pos_le (l : List Char) (e : Nat) : (rfindNl l e).getD e ≤ e := by
  cases hr : rfindNl l e with
  | none => simp
  | some p =>
    simp only [Option.getD_some]
    exact le_of_lt (rfindNl_some hr).1

/-- Loop progress: with limit ≥ 1 and an over-long text, the stripped
remainder after the cut is strictly shorter than the text. -/
theorem split_decrease {message : List Char} {max_length : Nat}
    (h1 : 1 ≤ max_length) (h2 : max_length < message.length) :
    (pyStrip (message.drop ((rfindNl message max_length).getD max_length))).length
      < message.length := by
  cases hr : rfindNl message max_length with
  | none =>
    simp only [hr, Option.getD_none]
    have ha : (message.drop max_length).length = message.length - max_length :=
      List.length_drop _ _
    have hb := pyStrip_length_le (message.drop max_length)
    omega
  | some p =>
    obtain ⟨hpe, hnl⟩ := rfindNl_some hr
    have hplen : p < message.length := getD_nl_lt hnl
    simp only [hr, Option.getD_some]
    have hd : message.drop p = message[p] :: message.drop (p + 1) :=
      List.drop_eq_getElem_cons hplen
    have hgd : message[p] = '\n' := by
      have h' := hnl
      rw [List.getD_eq_getElem?_getD, List.getElem?_eq_getElem hplen] at h'
      simpa using h'
    have hc1 : (pyStrip (message.drop p)).length
        ≤ ((message.drop p).dropWhile pyIsSpace).length := pyStrip_length_le_dropWhile _
    have hc2 : ((message.drop p).dropWhile pyIsSpace).length
        ≤ (message.drop (p + 1)).length := by
      rw [hd, List.dropWhile_cons]
      have : pyIsSpace message[p] = true := by rw [hgd]; decide
      rw [if_pos this]
      exact dropWhile_length_le _ _
    have hc3 : (message.drop (p + 1)).length = message.length - (p + 1) :=
      List.length_drop _ _
    omega

/-- Unfolding: a short enough text is a single segment. -/
theorem split_message_of_le {message : List Char} {max_length : Nat}
    (h : message.length ≤ max_length) : split_message message max_length = [message] := by
  unfold split_message
  rw [if_pos h]

/-- Unfolding: an over-long text yields the cut prefix then the chunking of
the stripped remainder. -/
theorem split_message_of_gt {message : List Char} {max_length : Nat}
    (h1 : 1 ≤ max_length) (h2 : max_length < message.length) :
    split_message message max_length =
      message.take ((rfindNl message max_length).getD max_length) ::
        split_message (pyStrip (message.drop ((rfindNl message max_length).getD max_length)))
          max_length := by
  conv_lhs => rw [split_message]
  rw [if_neg (by omega), dif_pos (split_decrease h1 h2)]

/-- The chunker always emits at least one segment. -/
theorem split_message_ne_nil (message : List Char) (max_length : Nat) :
    split_message message max_length ≠ [] := by
  unfold split_message
  split
  · simp
  · split
    · simp
    · simp

/-- On limits ≥ 1 the chunker agrees with its fuel-indexed restatement as
soon as the fuel covers the length of the text. -/
theorem split_message_eq_splitFuel {max_length : Nat} (h1 : 1 ≤ max_length) :
    ∀ fuel message, message.length ≤ fuel →
      split_message message max_length = splitFuel fuel message max_length := by
  intro fuel
  induction fuel with
  | zero =>
    intro message hm
    have hle : message.length ≤ max_length := by omega
    rw [split_message_of_le hle]
    rfl
  | succ f ih =>
    intro message hm
    by_cases hle : message.length ≤ max_length
    · rw [split_message_of_le hle]
      show _ = if message.length ≤ max_length then [message] else _
      rw [if_pos hle]
    · have h2 : max_length < message.length := by omega
      have hdec := split_decrease h1 h2
      rw [split_message_of_gt h1 h2, ih _ (by omega)]
      show _ = if message.length ≤ max_length then [message] else _
      rw [if_neg hle]

/-- Any list is its right-stripped part followed by its trailing run. -/
theorem rstrip_decomp (p : Char → Bool) (m : List Char) :
    m = (m.reverse.dropWhile p).reverse ++ (m.reverse.takeWhile p).reverse := by
  have h1 : m.reverse.takeWhile p ++ m.reverse.dropWhile p = m.reverse :=
    List.takeWhile_append_dropWhile p m.reverse
  have h2 := congrArg List.reverse h1
  rw [List.reverse_append, List.reverse_reverse] at h2
  exact h2.symm

/-- The left-stripped stage is the stripped text followed by the trailing
whitespace run. -/
theorem pyStrip_prefix_decomp (l : List Char) :
    l.dropWhile pyIsSpace
      = pyStrip l ++ ((l.dropWhile pyIsSpace).reverse.takeWhile pyIsSpace).reverse := by
  unfold pyStrip
  exact rstrip_decomp pyIsSpace (l.dropWhile pyIsSpace)

/-- Stripping removes exactly a leading and a trailing whitespace run. -/
theorem pyStrip_decomp (l : List Char) :
    ∃ w w', (∀ c ∈ w, pyIsSpace c = true) ∧ (∀ c ∈ w', pyIsSpace c = true) ∧
      l = w ++ pyStrip l ++ w' := by
  refine ⟨l.takeWhile pyIsSpace, ((l.dropWhile pyIsSpace).reverse.takeWhile pyIsSpace).reverse,
    ?_, ?_, ?_⟩
  · intro c hc
    exact List.mem_takeWhile_imp hc
  · intro c hc
    rw [List.mem_reverse] at hc
    exact List.mem_takeWhile_imp hc
  · conv_lhs => rw [← List.takeWhile_append_dropWhile pyIsSpace l, pyStrip_prefix_decomp l]
    rw [List.append_assoc]

/-- A nonempty stripped text starts with a non-whitespace character. -/
theorem pyStrip_head_not_space {l : List Char} {a : Char} {t : List Char}
    (h : pyStrip l = a :: t) : pyIsSpace a = false := by
  have hd := pyStrip_prefix_decomp l
  rw [h, List.cons_append] at hd
  exact dropWhile_head_false hd

/-- Whitespace may be absorbed into the last gap of an interleaving. -/
theorem interAppend_extend (t : List Char) (ht : ∀ c ∈ t, pyIsSpace c = true) :
    ∀ ps ws : List (List Char), ws.length = ps.length → ps ≠ [] →
      (∀ w ∈ ws, ∀ c ∈ w, pyIsSpace c = true) →
      ∃ ws2 : List (List Char), ws2.length = ps.length ∧
        (∀ w ∈ ws2, ∀ c ∈ w, pyIsSpace c = true) ∧
        interAppend ps ws2 = interAppend ps ws ++ t := by
  intro ps
  induction ps with
  | nil => intro ws _ hne _; exact absurd rfl hne
  | cons p ps ih =>
    intro ws hlen hne hws
    cases ws with
    | nil => simp at hlen
    | cons w0 wsr =>
      cases ps with
      | nil =>
        cases wsr with
        | nil =>
          refine ⟨[w0 ++ t], by simp, ?_, ?_⟩
          · intro w2 hmem c hc
            have hw2 : w2 = w0 ++ t := by simpa using hmem
            subst hw2
            rcases List.mem_append.mp hc with h | h
            · exact hws w0 (by simp) c h
            · exact ht c h
          · show p ++ (w0 ++ t) ++ interAppend [] [] = p ++ w0 ++ interAppend [] [] ++ t
            simp [interAppend, List.append_assoc]
        | cons _ _ => simp at hlen
      | cons q qs =>
        have hlen' : wsr.length = (q :: qs).length := by simpa using hlen
        obtain ⟨ws2, hl2, hw2, he2⟩ :=
          ih wsr hlen' (by simp) (fun y hy => hws y (by simp [hy]))
        refine ⟨w0 :: ws2, by simpa using hl2, ?_, ?_⟩
        · intro x hx c hc
          rcases List.mem_cons.mp hx with he | hm
          · subst he
            exact hws x (by simp) c hc
          · exact hw2 x hm c hc
        · show p ++ w0 ++ interAppend (q :: qs) ws2 = p ++ w0 ++ interAppend (q :: qs) wsr ++ t
          rw [he2]
          simp [List.append_assoc]

/-- Round trip of the chunker: the original text is the interleaving of the
produced segments with whitespace runs, one run consumed per cut (the run
after the final segment collects the stripped trailing whitespace). -/
theorem split_message_interAppend {max_length : Nat} (h1 : 1 ≤ max_length) :
    ∀ message : List Char,
      ∃ ws : List (List Char), ws.length = (split_message message max_length).length ∧
        (∀ w ∈ ws, ∀ c ∈ w, pyIsSpace c = true) ∧
        interAppend (split_message message max_length) ws = message := by
  suffices H : ∀ n (message : List Char), message.length ≤ n →
      ∃ ws : List (List Char), ws.length = (split_message message max_length).length ∧
        (∀ w ∈ ws, ∀ c ∈ w, pyIsSpace c = true) ∧
        interAppend (split_message message max_length) ws = message by
    intro message
    exact H message.length message le_rfl
  intro n
  induction n with
  | zero =>
    intro message hm
    have hle : message.length ≤ max_length := by omega
    rw [split_message_of_le hle]
    exact ⟨[[]], by simp, by simp, by simp [interAppend]⟩
  | succ n ih =>
    intro message hm
    by_cases hle : message.length ≤ max_length
    · rw [split_message_of_le hle]
      exact ⟨[[]], by simp, by simp, by simp [interAppend]⟩
    · have h2 : max_length < message.length := by omega
      have hdec := split_decrease h1 h2
      rw [split_message_of_gt h1 h2]
      obtain ⟨ws', hlen', hws', heq'⟩ :=
        ih (pyStrip (message.drop ((rfindNl message max_length).getD max_length))) (by omega)
      obtain ⟨w, w', hw, hw', hdeq⟩ :=
        pyStrip_decomp (message.drop ((rfindNl message max_length).getD max_length))
      obtain ⟨ws2, hl2, hws2, he2⟩ :=
        interAppend_extend w' hw'
          (split_message (pyStrip (message.drop ((rfindNl message max_length).getD max_length)))
            max_length)
          ws' hlen' (split_message_ne_nil _ _) hws'
      refine ⟨w :: ws2, by simpa using hl2, ?_, ?_⟩
      · intro w2 hw2 c hc
        rcases List.mem_cons.mp hw2 with rfl | hm2
        · exact hw c hc
        · exact hws2 w2 hm2 c hc
      · show message.take ((rfindNl message max_length).getD max_length) ++ w ++
            interAppend _ ws2 = message
        rw [he2, heq']
        conv_rhs =>
          rw [← List.take_append_drop ((rfindNl message max_length).getD max_length) message,
            hdeq]
        simp [List.append_assoc]

/-- Every segment the chunker produces fits in the limit. -/
theorem split_message_seg_le {max_length : Nat} (h1 : 1 ≤ max_length) :
    ∀ message : List Char, ∀ seg ∈ split_message message max_length,
      seg.length ≤ max_length := by
  suffices H : ∀ n (message : List Char), message.length ≤ n →
      ∀ seg ∈ split_message message max_length, seg.length ≤ max_length by
    intro message
    exact H message.length message le_rfl
  intro n
  induction n with
  | zero =>
    intro message hm seg hseg
    have hle : message.length ≤ max_length := by omega
    rw [split_message_of_le hle] at hseg
    have : seg = message := by simpa using hseg
    subst this
    omega
  | succ n ih =>
    intro message hm seg hseg
    by_cases hle : message.length ≤ max_length
    · rw [split_message_of_le hle] at hseg
      have : seg = message := by simpa using hseg
      subst this
      omega
    · have h2 : max_length < message.length := by omega
      have hdec := split_decrease h1 h2
      rw [split_message_of_gt h1 h2] at hseg
      rcases List.mem_cons.mp hseg with rfl | hm2
      · rw [List.length_take]
        have := split_pos_le message max_length
        omega
      · exact ih _ (by omega) seg hm2

/-- When the text starts with a non-whitespace character the cut position is
at least 1 (position 0 would require a leading newline). -/
theorem split_pos_ge_one {message : List Char} {max_length : Nat} (h1 : 1 ≤ max_length)
    (hne : message ≠ []) (hhead : pyIsSpace message.headI = false) :
    1 ≤ (rfindNl message max_length).getD max_length := by
  cases hr : rfindNl message max_length with
  | none => simpa using h1
  | some p =>
    simp only [Option.getD_some]
    obtain ⟨_, hnl⟩ := rfindNl_some hr
    by_contra hp
    have hp0 : p = 0 := by omega
    subst hp0
    cases message with
    | nil => exact hne rfl
    | cons a t =>
      have ha : a = '\n' := by simpa using hnl
      subst ha
      simp only [List.headI_cons] at hhead
      exact absurd hhead (by decide)

/-- A positive-length prefix of a nonempty list is nonempty. -/
theorem take_pos_ne_nil {l : List Char} {pos : Nat} (hp : 1 ≤ pos) (hl : l ≠ []) :
    l.take pos ≠ [] := by
  cases l with
  | nil => exact absurd rfl hl
  | cons a t =>
    cases pos with
    | zero => omega
    | succ m => simp

/-- A positive-length prefix keeps the head. -/
theorem headI_take {l : List Char} {pos : Nat} (hp : 1 ≤ pos) :
    (l.take pos).headI = l.headI := by
  cases l with
  | nil => simp
  | cons a t =>
    cases pos with
    | zero => omega
    | succ m => simp

/-- Base case of the segment-head invariant: a single-segment split. -/
theorem split_good_base {max_length : Nat} {message : List Char}
    (hle : message.length ≤ max_length)
    (hhead : message = [] ∨ pyIsSpace message.headI = false) :
    ∀ i, i < (split_message message max_length).length →
      ((split_message message max_length).getD i [] = [] →
          i + 1 = (split_message message max_length).length) ∧
      ((split_message message max_length).getD i [] ≠ [] →
          pyIsSpace ((split_message message max_length).getD i []).headI = false) := by
  intro i hi
  rw [split_message_of_le hle] at hi
  have hi0 : i = 0 := by
    simp at hi
    omega
  subst hi0
  rw [split_message_of_le hle]
  refine ⟨fun _ => by simp, fun hne => ?_⟩
  rcases hhead with he | hh
  · subst he
    simp at hne
  · simpa using hh

/-- Segment-head invariant: chunking a text that starts with a
non-whitespace character (or is empty) yields segments that are nonempty
and start with a non-whitespace character, except possibly the final one,
which may be empty. -/
theorem split_message_stripped_good {max_length : Nat} (h1 : 1 ≤ max_length) :
    ∀ n (message : List Char), message.length ≤ n →
      (message = [] ∨ pyIsSpace message.headI = false) →
      ∀ i, i < (split_message message max_length).length →
        ((split_message message max_length).getD i [] = [] →
            i + 1 = (split_message message max_length).length) ∧
        ((split_message message max_length).getD i [] ≠ [] →
            pyIsSpace ((split_message message max_length).getD i []).headI = false) := by
  intro n
  induction n with
  | zero =>
    intro message hm hhead
    exact split_good_base (by omega) hhead
  | succ n ih =>
    intro message hm hhead i hi
    by_cases hle : message.length ≤ max_length
    · exact split_good_base hle hhead i hi
    · have h2 : max_length < message.length := by omega
      have hdec := split_decrease h1 h2
      have hnem : message ≠ [] := by
        intro he
        subst he
        simp only [List.length_nil] at h2
        omega
      have hh : pyIsSpace message.headI = false := by
        rcases hhead with he | hh
        · exact absurd he hnem
        · exact hh
      have hpos := split_pos_ge_one h1 hnem hh
      rw [split_message_of_gt h1 h2] at hi ⊢
      cases i with
      | zero =>
        constructor
        · intro hempty
          exfalso
          exact take_pos_ne_nil hpos hnem (by simpa using hempty)
        · intro hne
          have hgd : ((message.take ((rfindNl message max_length).getD max_length) ::
              split_message
                (pyStrip (message.drop ((rfindNl message max_length).getD max_length)))
                max_length).getD 0 [])
              = message.take ((rfindNl message max_length).getD max_length) := rfl
          rw [hgd, headI_take hpos]
          exact hh
      | succ j =>
        have hrest : pyStrip (message.drop ((rfindNl message max_length).getD max_length)) = []
            ∨ pyIsSpace
                (pyStrip (message.drop ((rfindNl message max_length).getD max_length))).headI
                = false := by
          cases hps : pyStrip (message.drop ((rfindNl message max_length).getD max_length)) with
          | nil => exact Or.inl rfl
          | cons a t =>
            refine Or.inr ?_
            have := pyStrip_head_not_space hps
            simpa using this
        have hj :
            j < (split_message
              (pyStrip (message.drop ((rfindNl message max_length).getD max_length)))
              max_length).length := by
          simpa using hi
        have hrec := ih (pyStrip (message.drop ((rfindNl message max_length).getD max_length)))
          (by omega) hrest j hj
        constructor
        · intro hempty
          have h' := hrec.1 (by simpa using hempty)
          simp only [List.length_cons]
          omega
        · intro hne
          have h' := hrec.2 (by simpa using hne)
          simpa using h'

/-- Lookup after dict assignment sees the assigned value. -/
theorem tm_find_set (m : ThreadMap) (k v : String) : tm_find (tm_set m k v) k = some v := by
  simp [tm_set, tm_find]

/-- An exhausted attempt loop returns silently having done nothing. -/
theorem attempt_loop_zero (env : Env) (fuel s p : Nat) :
    attempt_loop env fuel 0 s p = ⟨.returned, [], 0, 0⟩ := rfl

/-- When every start-run response in range lacks a status, the attempt loop
performs one start-run call per attempt, sends no reply, never polls, and
falls off the end of the loop. -/
theorem attempt_loop_none_all (env : Env) (fuel : Nat) :
    ∀ n s p, (∀ j, j < n → env.startRun (s + j) = none) →
      attempt_loop env fuel n s p = ⟨.returned, [], n, 0⟩ := by
  intro n
  induction n with
  | zero => intro s p _; rfl
  | succ m ih =>
    intro s p h
    have h0 : env.startRun s = none := by simpa using h 0 (by omega)
    have hrec := ih (s + 1) p (fun j hj => by
      have he : s + 1 + j = s + (j + 1) := by omega
      rw [he]
      exact h (j + 1) (by omega))
    simp [attempt_loop, h0, hrec]

/-- An attempt whose start-run response has a status, and whose poll loop
reaches a terminal status, ends the whole call: with a reply when the
terminal status is failed, with the TypeError of line 239 otherwise. -/
theorem attempt_loop_poll_terminal (env : Env) (fuel s p r k : Nat) (run0 rT : RunJson)
    (h : env.startRun s = some run0) (hp : poll_loop env fuel run0 p = (some rT, k)) :
    attempt_loop env fuel (r + 1) s p =
      if rT.status = "failed" then ⟨.returned, ["Run failed: " ++ last_error_str rT], 1, k⟩
      else ⟨.typeError, [], 1, k⟩ := by
  simp [attempt_loop, h, hp]

/-- A terminal status stops the poll loop at once, with zero polls. -/
theorem poll_loop_terminal (env : Env) (fuel p : Nat) {run : RunJson}
    (h : run.status = "completed" ∨ run.status = "failed") :
    poll_loop env fuel run p = (some run, 0) := by
  cases fuel <;> simp [poll_loop, h]

/-- A non-terminal status polls once more. -/
theorem poll_loop_step (env : Env) (f p : Nat) {run : RunJson}
    (h : ¬(run.status = "completed" ∨ run.status = "failed")) :
    poll_loop env (f + 1) run p =
      ((poll_loop env f (env.poll p) (p + 1)).1, (poll_loop env f (env.poll p) (p + 1)).2 + 1) := by
  simp [poll_loop, h]

/-- A blocked channel returns silently, with no remote call at all. -/
theorem ask_question_blocked (env : Env) (allowed : Option (List Nat)) (threads : ThreadMap)
    (cid fuel : Nat) (h : isAllowed allowed cid = false) :
    ask_question env allowed threads cid fuel = ⟨.returned, [], 0, 0, 0, 0, threads⟩ := by
  simp [ask_question, h]

/-- A bound channel appends the message once and enters the run phase. -/
theorem ask_question_existing (env : Env) (allowed : Option (List Nat)) (threads : ThreadMap)
    (cid fuel : Nat) (tid : String)
    (hg : isAllowed allowed cid = true) (ht : tm_find threads (toString cid) = some tid) :
    ask_question env allowed threads cid fuel =
      ⟨(attempt_loop env fuel 3 0 0).exec, (attempt_loop env fuel 3 0 0).replies, 0, 1,
        (attempt_loop env fuel 3 0 0).startRunCalls, (attempt_loop env fuel 3 0 0).pollCalls,
        threads⟩ := by
  simp [ask_question, hg, ht]

/-- An unbound channel with a successful creation binds the returned id
(twice, lines 101 and 177) and enters the run phase with no append call. -/
theorem ask_question_create_ok (env : Env) (allowed : Option (List Nat)) (threads : ThreadMap)
    (cid fuel : Nat) (tid : String)
    (hg : isAllowed allowed cid = true) (ht : tm_find threads (toString cid) = none)
    (hc : env.createResp = Except.ok tid) :
    ask_question env allowed threads cid fuel =
      ⟨(attempt_loop env fuel 3 0 0).exec, (attempt_loop env fuel 3 0 0).replies, 1, 0,
        (attempt_loop env fuel 3 0 0).startRunCalls, (attempt_loop env fuel 3 0 0).pollCalls,
        tm_set (tm_set threads (toString cid) tid) (toString cid) tid⟩ := by
  simp [ask_question, create_thread, hg, ht, hc]

/-- Bound on the number of segments: the loop sheds at least one character
per iteration, so the chunking of a text has at most length + 1 segments. -/
theorem split_message_length_bound {max_length : Nat} (h1 : 1 ≤ max_length) :
    ∀ n (message : List Char), message.length ≤ n →
      (split_message message max_length).length ≤ message.length + 1 := by
  intro n
  induction n with
  | zero =>
    intro message hm
    rw [split_message_of_le (by omega)]
    simp
  | succ n ih =>
    intro message hm
    by_cases hle : message.length ≤ max_length
    · rw [split_message_of_le hle]
      simp
    · have h2 : max_length < message.length := by omega
      have hdec := split_decrease h1 h2
      rw [split_message_of_gt h1 h2]
      have hrec := ih (pyStrip (message.drop ((rfindNl message max_length).getD max_length)))
        (by omega)
      simp only [List.length_cons]
      omega

/-- C1 (amended): when the three consecutive start-run responses of one
orchestration call on a bound channel carry no status, the orchestrator
performs exactly 3 attempts, makes no appendMessage call beyond the initial
one, and returns silently: no failure message of any kind is sent to the
caller (the failures are only logged). -/
theorem ask_three_startrun_failures_silent (env : Env) (allowed : Option (List Nat))
    (threads : ThreadMap) (cid fuel : Nat) (tid : String)
    (hg : isAllowed allowed cid = true) (ht : tm_find threads (toString cid) = some tid)
    (h0 : env.startRun 0 = none) (h1 : env.startRun 1 = none) (h2 : env.startRun 2 = none) :
    (ask_question env allowed threads cid fuel).startRunCalls = 3 ∧
    (ask_question env allowed threads cid fuel).appendCalls = 1 ∧
    (ask_question env allowed threads cid fuel).replies = [] ∧
    (ask_question env allowed threads cid fuel).exec = ExecStatus.returned := by
  have hall : ∀ j, j < 3 → env.startRun (0 + j) = none := by
    intro j hj
    have hj3 : j = 0 ∨ j = 1 ∨ j = 2 := by omega
    rcases hj3 with rfl | rfl | rfl
    · simpa using h0
    · simpa using h1
    · simpa using h2
  have ha := attempt_loop_none_all env fuel 3 0 0 hall
  rw [ask_question_existing env allowed threads cid fuel tid hg ht, ha]
  exact ⟨rfl, rfl, rfl, rfl⟩

/-- C1 witness: a concrete run of the amended statement. -/
theorem ask_three_startrun_failures_silent_w :
    (ask_question envNoStatus none [("1", "t1")] 1 0).startRunCalls = 3 ∧
    (ask_question envNoStatus none [("1", "t1")] 1 0).appendCalls = 1 ∧
    (ask_question envNoStatus none [("1", "t1")] 1 0).replies = [] ∧
    (ask_question envNoStatus none [("1", "t1")] 1 0).exec = ExecStatus.returned :=
  ask_three_startrun_failures_silent envNoStatus none [("1", "t1")] 1 0 "t1" (by decide)
    (by decide) (by decide) (by decide) (by decide)

/-- C1 counterexample: with three status-less start-run responses the code
performs its 3 attempts and the initial append, yet the list of messages
sent to the caller is empty, refuting the claim that a terminal
RunFailed/RemoteError failure message is surfaced. -/
theorem ask_three_startrun_failures_no_reply_cex :
    (ask_question envNoStatus none [("1", "t1")] 1 0).startRunCalls = 3 ∧
    (ask_question envNoStatus none [("1", "t1")] 1 0).appendCalls = 1 ∧
    (ask_question envNoStatus none [("1", "t1")] 1 0).replies = [] := by decide

/-- C2 (amended): when the poll loop reaches the terminal status failed, the
orchestrator immediately replies with the remote-provided error and ends the
whole orchestration call: the failed run consumes no retry, so exactly one
start-run call is made. -/
theorem ask_run_failed_immediate_reply (env : Env) (allowed : Option (List Nat))
    (threads : ThreadMap) (cid fuel k : Nat) (tid : String) (run0 rT : RunJson)
    (hg : isAllowed allowed cid = true) (ht : tm_find threads (toString cid) = some tid)
    (h0 : env.startRun 0 = some run0) (hp : poll_loop env fuel run0 0 = (some rT, k))
    (hf : rT.status = "failed") :
    (ask_question env allowed threads cid fuel).replies = ["Run failed: " ++ last_error_str rT] ∧
    (ask_question env allowed threads cid fuel).startRunCalls = 1 ∧
    (ask_question env allowed threads cid fuel).pollCalls = k ∧
    (ask_question env allowed threads cid fuel).exec = ExecStatus.returned := by
  have ha := attempt_loop_poll_terminal env fuel 0 0 2 k run0 rT h0 hp
  rw [if_pos hf] at ha
  have ha3 : attempt_loop env fuel 3 0 0 =
      ⟨.returned, ["Run failed: " ++ last_error_str rT], 1, k⟩ := ha
  rw [ask_question_existing env allowed threads cid fuel tid hg ht, ha3]
  exact ⟨rfl, rfl, rfl, rfl⟩

/-- C2 witness: a concrete run of the amended statement. -/
theorem ask_run_failed_immediate_reply_w :
    (ask_question envFailed none [("1", "t1")] 1 2).replies =
        ["Run failed: " ++ last_error_str runFailedBoom] ∧
    (ask_question envFailed none [("1", "t1")] 1 2).startRunCalls = 1 ∧
    (ask_question envFailed none [("1", "t1")] 1 2).pollCalls = 1 ∧
    (ask_question envFailed none [("1", "t1")] 1 2).exec = ExecStatus.returned :=
  ask_run_failed_immediate_reply envFailed none [("1", "t1")] 1 2 1 "t1" runQueued
    runFailedBoom (by decide) (by decide) (by decide) (by decide) (by decide)

/-- C2 counterexample: a first-poll failed status makes the code reply with
the remote error after a single start-run call and end the orchestration,
refuting the claim that the failure is counted as one of 3 attempts and the
error surfaced only after the budget is exhausted. -/
theorem ask_run_failed_single_attempt_cex :
    (ask_question envFailed none [("1", "t1")] 1 2).startRunCalls = 1 ∧
    (ask_question envFailed none [("1", "t1")] 1 2).replies = ["Run failed: boom"] ∧
    (ask_question envFailed none [("1", "t1")] 1 2).exec = ExecStatus.returned := by decide

/-- C3 (amended): for every text and limit ≥ 1, every segment has length at
most the limit, at least one segment is produced even for empty input, and
the original text is recovered by re-inserting at each cut the whitespace
run the cut consumed (a run that can hold more than the single separator
character, and that also absorbs trailing whitespace of the text). -/
theorem split_message_roundtrip_ws (message : List Char) (limit : Nat) (h : 1 ≤ limit) :
    (∀ seg ∈ split_message message limit, seg.length ≤ limit) ∧
    split_message message limit ≠ [] ∧
    ∃ ws : List (List Char), ws.length = (split_message message limit).length ∧
      (∀ w ∈ ws, ∀ c ∈ w, pyIsSpace c = true) ∧
      interAppend (split_message message limit) ws = message :=
  ⟨split_message_seg_le h message, split_message_ne_nil message limit,
    split_message_interAppend h message⟩

/-- C3 witness: a concrete run of the amended statement. -/
theorem split_message_roundtrip_ws_w :
    (1 : Nat) ≤ 4 ∧ split_message ("ab\n cd".data) 4 ≠ [] :=
  ⟨by decide, (split_message_roundtrip_ws ("ab\n cd".data) 4 (by decide)).2.1⟩

/-- C3 counterexample: on "ab\n cd" with limit 4 the cut consumes the
two-character whitespace run newline-space, so re-inserting the single
separator consumed at the cut does not reproduce the text; indeed the total
segment length plus one character per cut falls short of the original
length, so no choice of single separators can. -/
theorem split_message_single_sep_cex :
    split_message ("ab\n cd".data) 4 = ["ab".data, "cd".data] ∧
    "ab".data ++ '\n' :: "cd".data ≠ "ab\n cd".data ∧
    ((split_message ("ab\n cd".data) 4).map List.length).sum +
      ((split_message ("ab\n cd".data) 4).length - 1) < ("ab\n cd".data).length := by
  have he : split_message ("ab\n cd".data) 4 = splitFuel 6 ("ab\n cd".data) 4 :=
    split_message_eq_splitFuel (by omega) 6 _ (by decide)
  refine ⟨?_, by decide, ?_⟩
  · rw [he]
    decide
  · rw [he]
    decide

/-- C4: on the success path (statuses queued, in progress, completed) the
orchestrator does poll once per status transition, but line 235 invokes the
async get_latest_assistant_message without await, so the coroutine object is
truthy and line 239 raises a TypeError inside re.sub: the call crashes and
no cleaned answer is ever delivered.  Cleaning itself, applied to the
spec's example, does produce "Answer  text". -/
theorem ask_success_path_type_error :
    (ask_question envSuccess none [("1", "t1")] 1 5).exec = ExecStatus.typeError ∧
    (ask_question envSuccess none [("1", "t1")] 1 5).replies = [] ∧
    (ask_question envSuccess none [("1", "t1")] 1 5).startRunCalls = 1 ∧
    (ask_question envSuccess none [("1", "t1")] 1 5).pollCalls = 2 ∧
    clean_content ("Answer 【ref:1】 text".data) = ("Answer  text".data) := by decide

/-- C5: the first orchestration call on an unbound channel performs exactly
one createConversation call and installs a registry entry equal to the id it
returned; a second call on the same channel performs zero further
createConversation calls and appends the message instead. -/
theorem ask_first_call_creates_once (env env2 : Env) (allowed : Option (List Nat))
    (threads : ThreadMap) (cid fuel fuel2 : Nat) (tid : String)
    (hg : isAllowed allowed cid = true)
    (ht : tm_find threads (toString cid) = none)
    (hc : env.createResp = Except.ok tid) :
    (ask_question env allowed threads cid fuel).createCalls = 1 ∧
    tm_find (ask_question env allowed threads cid fuel).threads (toString cid) = some tid ∧
    (ask_question env2 allowed (ask_question env allowed threads cid fuel).threads cid
        fuel2).createCalls = 0 ∧
    (ask_question env2 allowed (ask_question env allowed threads cid fuel).threads cid
        fuel2).appendCalls = 1 := by
  rw [ask_question_create_ok env allowed threads cid fuel tid hg ht hc]
  refine ⟨rfl, tm_find_set _ _ _, ?_, ?_⟩
  · rw [ask_question_existing env2 allowed _ cid fuel2 tid hg (tm_find_set _ _ _)]
  · rw [ask_question_existing env2 allowed _ cid fuel2 tid hg (tm_find_set _ _ _)]

/-- C5 witness: a concrete run of the statement. -/
theorem ask_first_call_creates_once_w :
    (ask_question envCreateOnly none [] 1 0).createCalls = 1 ∧
    tm_find (ask_question envCreateOnly none [] 1 0).threads (toString 1) = some "t1" ∧
    (ask_question envCreateOnly none (ask_question envCreateOnly none [] 1 0).threads 1
        0).createCalls = 0 ∧
    (ask_question envCreateOnly none (ask_question envCreateOnly none [] 1 0).threads 1
        0).appendCalls = 1 :=
  ask_first_call_creates_once envCreateOnly envCreateOnly none [] 1 0 0 "t1" (by decide)
    (by decide) rfl

/-- C6: when the text is longer than the limit and a newline occurs in the
first limit characters, the first segment is the prefix up to the last such
newline; when no newline occurs in the window the cut is at exactly the
limit; and the concrete case of the spec holds. -/
theorem split_message_cut_pref :
    (∀ (message : List Char) (limit p : Nat), 1 ≤ limit → limit < message.length →
        p < limit → message.getD p ' ' = '\n' →
        (∀ j, j < limit → p < j → message.getD j ' ' ≠ '\n') →
        (split_message message limit).head? = some (message.take p)) ∧
    (∀ (message : List Char) (limit : Nat), 1 ≤ limit → limit < message.length →
        (∀ j, j < limit → message.getD j ' ' ≠ '\n') →
        (split_message message limit).head? = some (message.take limit)) ∧
    split_message ("abcde\nfghijk".data) 10 = ["abcde".data, "fghijk".data] := by
  refine ⟨?_, ?_, ?_⟩
  · intro message limit p h1 h2 hp hnl hlast
    rw [split_message_of_gt h1 h2, rfindNl_eq_some hp hnl hlast]
    rfl
  · intro message limit h1 h2 hnone
    rw [split_message_of_gt h1 h2, rfindNl_eq_none (fun j hj => hnone j hj)]
    rfl
  · rw [split_message_eq_splitFuel (by omega) 12 _ (by decide)]
    decide

/-- C6 witness: the general cut-preference statement applied to the spec's
concrete case. -/
theorem split_message_cut_pref_w :
    (split_message ("abcde\nfghijk".data) 10).head? = some (("abcde\nfghijk".data).take 5) :=
  split_message_cut_pref.1 ("abcde\nfghijk".data) 10 5 (by decide) (by decide) (by decide)
    (by decide) (by decide)

/-- C7: the access gate is the pure predicate isAllowed: a configured list
admits exactly its members, while an unset or empty ALLOWED_CHANNELS value
loads as the unrestricted gate that admits every channel; parsing a concrete
two-channel value yields that two-channel list. -/
theorem isAllowed_gate_spec :
    (∀ A B : Nat, isAllowed (some [A, B]) A = true) ∧
    (∀ A B C : Nat, C ≠ A → C ≠ B → isAllowed (some [A, B]) C = false) ∧
    (∀ x : Nat, isAllowed (load_allowed_channels none) x = true) ∧
    (∀ x : Nat, isAllowed (load_allowed_channels (some [])) x = true) ∧
    load_allowed_channels (some ("111,222".data)) = some [111, 222] := by
  refine ⟨?_, ?_, fun x => rfl, fun x => rfl, by decide⟩
  · intro A B
    simp [isAllowed, List.contains_cons]
  · intro A B C hCA hCB
    simp [isAllowed, List.contains_cons, hCA, hCB]

/-- C7 witness: the negative half at concrete channel ids. -/
theorem isAllowed_gate_spec_w : isAllowed (some [11, 22]) 33 = false :=
  isAllowed_gate_spec.2.1 11 22 33 (by decide) (by decide)

/-- C8: loading the registry never fails: a missing storage file and an
undecodable one both load as the empty registry, in which no channel
resolves to a conversation, so subsequent operation proceeds as if no
channel had ever been bound. -/
theorem load_threads_never_fails :
    load_threads FileState.missing = [] ∧
    load_threads (FileState.present none) = [] ∧
    (∀ key : String, tm_find (load_threads FileState.missing) key = none) ∧
    (∀ key : String, tm_find (load_threads (FileState.present none)) key = none) :=
  ⟨rfl, rfl, fun _ => rfl, fun _ => rfl⟩

/-- C9: the chunker terminates for every limit ≥ 1: each loop iteration
strictly shortens the remaining text, and consequently the segment sequence
is finite, of length at most the text length plus one. -/
theorem split_message_terminates (message : List Char) (limit : Nat) (h : 1 ≤ limit) :
    (limit < message.length →
      (pyStrip (message.drop ((rfindNl message limit).getD limit))).length
        < message.length) ∧
    (split_message message limit).length ≤ message.length + 1 :=
  ⟨fun h2 => split_decrease h h2,
    split_message_length_bound h message.length message le_rfl⟩

/-- C9 witness: a concrete run of the statement. -/
theorem split_message_terminates_w :
    (split_message ("ab\nc".data) 1).length ≤ ("ab\nc".data).length + 1 :=
  (split_message_terminates ("ab\nc".data) 1 (by decide)).2

/-- C10: each cut strips the whole leading and trailing whitespace run of
the remaining text, not a single separator; consequently every segment
after the first either starts with a non-whitespace character or is the
empty final segment. -/
theorem split_message_strip_runs (message : List Char) (limit : Nat) (h : 1 ≤ limit) :
    (∀ l : List Char, ∃ w w', (∀ c ∈ w, pyIsSpace c = true) ∧
        (∀ c ∈ w', pyIsSpace c = true) ∧ l = w ++ pyStrip l ++ w') ∧
    (∀ i, 0 < i → i < (split_message message limit).length →
      ((split_message message limit).getD i [] = [] →
          i = (split_message message limit).length - 1) ∧
      ((split_message message limit).getD i [] ≠ [] →
          pyIsSpace ((split_message message limit).getD i []).headI = false)) := by
  refine ⟨pyStrip_decomp, ?_⟩
  intro i hpos hi
  by_cases hle : message.length ≤ limit
  · rw [split_message_of_le hle] at hi
    simp at hi
    omega
  · have h2 : limit < message.length := by omega
    rw [split_message_of_gt h h2] at hi ⊢
    obtain ⟨j, rfl⟩ : ∃ j, i = j + 1 := ⟨i - 1, by omega⟩
    have hrest : pyStrip (message.drop ((rfindNl message limit).getD limit)) = []
        ∨ pyIsSpace (pyStrip (message.drop ((rfindNl message limit).getD limit))).headI
            = false := by
      cases hps : pyStrip (message.drop ((rfindNl message limit).getD limit)) with
      | nil => exact Or.inl rfl
      | cons a t =>
        refine Or.inr ?_
        have hh := pyStrip_head_not_space hps
        simpa using hh
    have hj : j < (split_message
        (pyStrip (message.drop ((rfindNl message limit).getD limit))) limit).length := by
      simpa using hi
    have hrec := split_message_stripped_good h
      (pyStrip (message.drop ((rfindNl message limit).getD limit))).length
      (pyStrip (message.drop ((rfindNl message limit).getD limit))) le_rfl hrest j hj
    constructor
    · intro hempty
      have h' := hrec.1 (by simpa using hempty)
      simp only [List.length_cons]
      omega
    · intro hne
      have h' := hrec.2 (by simpa using hne)
      simpa using h'

/-- C10 witness: on "a\n b" with limit 2 the second segment starts with the
non-whitespace character b. -/
theorem split_message_strip_runs_w :
    pyIsSpace ((split_message ("a\n b".data) 2).getD 1 []).headI = false := by
  have hsp : split_message ("a\n b".data) 2 = [['a'], ['b']] := by
    rw [split_message_eq_splitFuel (by omega) 4 _ (by decide)]
    decide
  exact ((split_message_strip_runs ("a\n b".data) 2 (by decide)).2 1 (by decide)
    (by rw [hsp]; decide)).2 (by rw [hsp]; decide)
